import Mathlib

/-!
Shallow embedding of the hard core of the edge-ai-translator repository:
token-bucket rate limiter, retry/backoff policy and scheduler timing
(src/unnamed/part_000, the scheduler module), LRU+TTL cache and cache keys
(src/edge-translator-extension/src/cache.js), batch splitter and segment
heuristics (src/edge-translator-extension/options/options.js), and the
translation orchestrator `translateTextsV2` with its openai batch fallback
(the service-worker part of src/edge-translator-extension/src/cache.js).

JavaScript numbers are modelled as `ℚ` where fractional arithmetic matters
(token bucket, timestamps) and as `ℕ`/`ℤ` where the code only ever holds
integers.  The JS value `undefined` is modelled as `Option.none`; a JS
`Error` object is the structure `JsError` (name, message, optional numeric
`status` field).
-/

namespace EdgeAI

/-- A JS `Error`-like object as the scheduler and orchestrator inspect it:
`name`, `message`, and an optional numeric `status` property. -/
structure JsError where
  name : String
  message : String
  status : Option Int
deriving DecidableEq

/-- `clamp(v, lo, hi) = Math.min(hi, Math.max(lo, v))` from the scheduler
module. -/
def clampQ (v lo hi : ℚ) : ℚ := min hi (max lo v)

/-- State of the `TokenBucket` class plus the ambient clock (`Date.now()`),
which the embedding threads explicitly: `rps`, `capacity`, `tokens`,
`lastRefill` are the four fields of the class, `time` is the current
wall-clock in milliseconds. -/
structure BucketSt where
  rps : ℚ
  capacity : ℚ
  tokens : ℚ
  lastRefill : ℚ
  time : ℚ
deriving DecidableEq

/-- The `TokenBucket` constructor with `setRate(rps, burst)` applied:
`rps = Math.max(0.001, rps)`, `capacity = Math.max(1, Math.floor(burst))`,
`tokens = capacity`, `lastRefill = now`. -/
def mkTokenBucket (rps burst t0 : ℚ) : BucketSt :=
  { rps := max (1/1000) rps
    capacity := max 1 (⌊burst⌋ : ℚ)
    tokens := max 1 (⌊burst⌋ : ℚ)
    lastRefill := t0
    time := t0 }

/-- `TokenBucket._refill()`: add `elapsedSeconds * rps` tokens, clamped to
`[0, capacity]`, and move `lastRefill` forward — only when time elapsed. -/
def BucketSt.refill (b : BucketSt) : BucketSt :=
  let elapsed := (b.time - b.lastRefill) / 1000
  if 0 < elapsed then
    { b with tokens := clampQ (b.tokens + elapsed * b.rps) 0 b.capacity
             lastRefill := b.time }
  else b

/-- The retry loop body of `TokenBucket.take(n)`, with explicit fuel standing
for the number of loop iterations the execution is allowed; each `sleep`
advances the modelled clock by exactly the requested wait
(`clamp(deficit / rps * 1000, 10, 2000)` milliseconds).  `none` means the
call has not resolved within `fuel` iterations. -/
def takeLoop (n : ℚ) : ℕ → BucketSt → Option BucketSt
  | 0, _ => none
  | fuel + 1, b =>
    let b1 := b.refill
    if n ≤ b1.tokens then some { b1 with tokens := b1.tokens - n }
    else
      let deficit := n - b1.tokens
      let waitMs := clampQ (deficit / b1.rps * 1000) 10 2000
      takeLoop n fuel { b1 with time := b1.time + waitMs }

/-- `TokenBucket.take(n)`: the argument is first clamped to
`Math.max(0.001, n)`. -/
def BucketSt.take (b : BucketSt) (n : ℚ) (fuel : ℕ) : Option BucketSt :=
  takeLoop (max (1/1000) n) fuel b

/-- The `AbortError` class: `name = 'AbortError'`, default message
`'Aborted'`, no `status` field. -/
def abortError (message : String := "Aborted") : JsError :=
  { name := "AbortError", message := message, status := none }

/-- `computeBackoffDelay(attempt, baseMs, maxMs, jitter=false)`:
`min(baseMs * 2 ^ Math.max(0, attempt - 1), maxMs)` (natural subtraction
models the `Math.max(0, ·)`). -/
def computeBackoffDelayBase (attempt baseMs maxMs : ℕ) : ℕ :=
  min (baseMs * 2 ^ (attempt - 1)) maxMs

/-- With `jitter = true`, `computeBackoffDelay` draws
`jitterPct = randBetween(10, 30)`, sets `delta = Math.floor(d * jitterPct / 100)`
and returns `randBetween(d - delta, d + delta)`.  This predicate holds of
exactly the values one such call can return. -/
def backoffJitterPossible (attempt baseMs maxMs : ℕ) (x : ℤ) : Prop :=
  ∃ pct : ℕ, 10 ≤ pct ∧ pct ≤ 30 ∧
    (computeBackoffDelayBase attempt baseMs maxMs : ℤ)
        - (computeBackoffDelayBase attempt baseMs maxMs * pct / 100 : ℕ) ≤ x ∧
    x ≤ (computeBackoffDelayBase attempt baseMs maxMs : ℤ)
        + (computeBackoffDelayBase attempt baseMs maxMs * pct / 100 : ℕ)

/-- JS `\w` (word character) as the regexes of this module use it:
`[A-Za-z0-9_]`. -/
def isWordChar (c : Char) : Bool := c.isAlphanum || c = '_'

/-- JS `\s` restricted to the ASCII whitespace the repository's messages can
contain. -/
def isSpaceChar (c : Char) : Bool :=
  c = ' ' || c = '\t' || c = '\n' || c = '\r' || c = Char.ofNat 11 || c = Char.ofNat 12

/-- Split a leading run of whitespace, returning its length and the rest. -/
def takeSpaces : List Char → ℕ × List Char
  | [] => (0, [])
  | c :: rest =>
    if isSpaceChar c then
      let p := takeSpaces rest
      (p.1 + 1, p.2)
    else (0, c :: rest)

/-- Read exactly three decimal digits (`\d{3}`), returning their value and
the rest of the input. -/
def threeDigits : List Char → Option (ℕ × List Char)
  | a :: b :: c :: rest =>
    if a.isDigit && b.isDigit && c.isDigit then
      some ((a.toNat - 48) * 100 + (b.toNat - 48) * 10 + (c.toNat - 48), rest)
    else none
  | _ => none

/-- Try the regex `\bHTTP\s+(\d{3})\b` at the head of the input; `prev` is
the character just before it (for the leading word boundary). -/
def httpMatchAt (prev : Option Char) : List Char → Option ℕ
  | 'H' :: 'T' :: 'T' :: 'P' :: rest =>
    if (match prev with | none => true | some p => !isWordChar p) then
      let sp := takeSpaces rest
      if sp.1 = 0 then none
      else
        match threeDigits sp.2 with
        | some (n, r2) =>
          match r2 with
          | [] => some n
          | c :: _ => if isWordChar c then none else some n
        | none => none
    else none
  | _ => none

/-- Scan for the first (leftmost) match of `\bHTTP\s+(\d{3})\b`. -/
def scanHTTP : Option Char → List Char → Option ℕ
  | _, [] => none
  | prev, c :: rest =>
    match httpMatchAt prev (c :: rest) with
    | some n => some n
    | none => scanHTTP (some c) rest

/-- `(e.message || '').match(/\bHTTP\s+(\d{3})\b/)`, first capture. -/
def firstHttpStatus (s : String) : Option ℕ := scanHTTP none s.toList

/-- `extractStatus(e)` of the scheduler module: a numeric `status` field
wins; otherwise the first `HTTP ddd` found in the message; otherwise 0. -/
def extractStatus (e : JsError) : Int :=
  match e.status with
  | some s => s
  | none =>
    match firstHttpStatus e.message with
    | some n => (n : Int)
    | none => 0

/-- `String.prototype.toLowerCase` on one character, for the ASCII text the
classifiers compare. -/
def jsToLowerChar (c : Char) : Char :=
  if 'A' ≤ c ∧ c ≤ 'Z' then Char.ofNat (c.toNat + 32) else c

/-- `String.prototype.toLowerCase`. -/
def jsToLower (s : String) : String := String.mk (s.toList.map jsToLowerChar)

/-- `String.prototype.trim`: strip leading and trailing whitespace. -/
def jsTrim (s : String) : String :=
  String.mk ((((s.toList.dropWhile Char.isWhitespace).reverse).dropWhile
    Char.isWhitespace).reverse)

/-- Does `pat` occur as a contiguous run inside `l`? -/
def occursIn (pat : List Char) : List Char → Bool
  | [] => pat.isEmpty
  | c :: rest => pat.isPrefixOf (c :: rest) || occursIn pat rest

/-- Case-insensitive substring test, modelling `/pat1|pat2|.../i.test(s)`
for literal alternatives. -/
def containsCI (s pat : String) : Bool :=
  occursIn (jsToLower pat).toList (jsToLower s).toList

/-- `isNetworkError(e)`: name is `'TypeError'` or the message matches
`/NetworkError|Failed to fetch|net::ERR/i`. -/
def isNetworkError (e : JsError) : Bool :=
  e.name == "TypeError" || containsCI e.message "NetworkError"
    || containsCI e.message "Failed to fetch" || containsCI e.message "net::ERR"

/-- `withRetry`'s default retriability classifier, used when no custom
`isRetriable` option is supplied:
`isNetworkError(e) || retryOn.includes(extractStatus(e))`. -/
def defaultRetriable (retryOn : List Int) (e : JsError) : Bool :=
  isNetworkError e || retryOn.contains (extractStatus e)

/-- The default `retryOn` list of `withRetry`. -/
def defaultRetryOn : List Int := [429, 500, 502, 503, 504]

/-- The retry loop of `withRetry(fn, opts)`: `f` yields the outcome of the
attempt with the given 0-based attempt number, `remaining` counts the retries
still allowed (`maxRetries - attempt`); on a failure that is retriable while
retries remain, the loop re-enters with `attempt + 1`. -/
def withRetryAux (f : ℕ → Except JsError α) (retriable : JsError → ℕ → Bool) :
    ℕ → ℕ → Except JsError α
  | attempt, 0 => f attempt
  | attempt, r + 1 =>
    match f attempt with
    | .ok a => .ok a
    | .error e =>
      if retriable e attempt then withRetryAux f retriable (attempt + 1) r
      else .error e

/-- `withRetry` with the default classifier (no custom `isRetriable`). -/
def withRetryModel (f : ℕ → Except JsError α) (maxRetries : ℕ) (retryOn : List Int) :
    Except JsError α :=
  withRetryAux f (fun e _ => defaultRetriable retryOn e) 0 maxRetries

/-! ## Scheduler dispatch timing (`createScheduler`'s `runOne`)

`runOne(item)` does, in order: `running += 1`; if the temporary throttle
deadline is in the future, one `sleep(clamp(deadline - now, 50, 2000))`;
one `sleep(jitter)` for the drawn jitter; the `item.signal?.aborted` check
(throwing `AbortError`); `limiter.take(1)`; the task body.  The embedding
names the clock value at each of those points. -/

/-- The single throttle sleep at the top of `runOne`:
`tempThrottleUntil > now ? clamp(tempThrottleUntil - now, 50, 2000) : 0`
milliseconds. -/
def throttleWaitMs (now throttleUntil : ℚ) : ℚ :=
  if now < throttleUntil then clampQ (throttleUntil - now) 50 2000 else 0

/-- One `runOne` execution's inputs: the clock when the task is started, the
current `tempThrottleUntil`, the jitter delay drawn by `getJitterDelay()`,
whether `item.signal` has already fired, and the rate limiter's state. -/
structure RunOneCtx where
  startTime : ℚ
  throttleUntil : ℚ
  jitterDelay : ℚ
  aborted : Bool
  bucket : BucketSt
deriving DecidableEq

/-- Clock value after the throttle sleep. -/
def timeAfterThrottle (c : RunOneCtx) : ℚ :=
  c.startTime + throttleWaitMs c.startTime c.throttleUntil

/-- Clock value at the `item.signal?.aborted` check, which is also the
earliest moment `limiter.take(1)` can run. -/
def timeAtAbortCheck (c : RunOneCtx) : ℚ :=
  timeAfterThrottle c + c.jitterDelay

/-- `runOne` increments `running` before any of its waits, so while a task
sits in the throttle/jitter sleeps the slot it occupies is unavailable to
queued tasks. -/
def runningDuringRunOne (running : ℕ) : ℕ := running + 1

/-- The outcome of `runOne` up to the task body: for an already-aborted
signal, reject with `AbortError` (the limiter untouched); otherwise acquire
one token starting at `timeAtAbortCheck` and run the body.  `none` when the
take loop's fuel is exhausted (the call is still waiting). -/
def runOneModel (c : RunOneCtx) (fuel : ℕ) (body : α) :
    Option (Except JsError α × BucketSt) :=
  if c.aborted then some (.error (abortError "Aborted"), c.bucket)
  else
    match BucketSt.take { c.bucket with time := timeAtAbortCheck c } 1 fuel with
    | some b1 => some (.ok body, b1)
    | none => none

/-! ## LRU cache with TTL (`LRUCache` of src/cache.js)

The backing `Map` is a key-ordered association list, oldest (least recently
used) first, as JS `Map` iteration order gives.  Stored values live in
`Option String`, where `none` is the JS value `undefined`. -/

/-- One cache entry `{ v, exp }`; `exp ≤ 0` means "no expiration". -/
structure CacheEntry where
  v : Option String
  exp : Int
deriving DecidableEq

/-- `LRUCache` state: `size` (capacity), default `ttlMs`, `enabled`, and the
backing map. -/
structure LRUCache where
  size : ℕ
  ttlMs : Int
  enabled : Bool
  map : List (String × CacheEntry)
deriving DecidableEq

/-- JS `map.get(key)`. -/
def mapGet (m : List (String × CacheEntry)) (k : String) : Option CacheEntry :=
  (m.find? (fun p => p.1 == k)).map (·.2)

/-- JS `map.delete(key)`. -/
def mapDelete (m : List (String × CacheEntry)) (k : String) :
    List (String × CacheEntry) :=
  m.filter (fun p => p.1 != k)

/-- JS `map.set(key, e)`: overwrite in place when the key is present
(keeping its position), else append at the tail (most recently used). -/
def mapSet (m : List (String × CacheEntry)) (k : String) (e : CacheEntry) :
    List (String × CacheEntry) :=
  if m.any (fun p => p.1 == k) then
    m.map (fun p => if p.1 == k then (k, e) else p)
  else m ++ [(k, e)]

/-- `LRUCache._isExpired(entry)`: `exp ≤ 0` never expires, else expired when
`now > exp`. -/
def isExpired (now : Int) (e : CacheEntry) : Bool :=
  if e.exp ≤ 0 then false else e.exp < now

/-- `LRUCache._touch(key, entry)`: delete then re-set, moving the entry to
the most-recently-used tail position. -/
def touch (m : List (String × CacheEntry)) (k : String) (e : CacheEntry) :
    List (String × CacheEntry) :=
  mapSet (mapDelete m k) k e

/-- The `while (map.size > size) delete first` loop of
`LRUCache._evictIfNeeded`. -/
def evictGo (size : ℕ) : List (String × CacheEntry) → List (String × CacheEntry)
  | [] => []
  | x :: rest => if size < (x :: rest).length then evictGo size rest else x :: rest

/-- `LRUCache.get(key)` at clock `now`: returns the JS result (`none` is
`undefined`) and the cache state after the call's side effects (lazy expiry
eviction, recency touch). -/
def LRUCache.get (c : LRUCache) (k : String) (now : Int) :
    Option String × LRUCache :=
  if !c.enabled then (none, c)
  else
    match mapGet c.map k with
    | none => (none, c)
    | some e =>
      if isExpired now e then (none, { c with map := mapDelete c.map k })
      else (e.v, { c with map := touch c.map k e })

/-- `LRUCache.set(key, value, ttlMs?)` at clock `now`: no-op when disabled;
`ttl` defaults to the cache's `ttlMs`; `ttl ≤ 0` stores a never-expiring
entry; then touch and evict down to `size`. -/
def LRUCache.set (c : LRUCache) (k : String) (v : Option String)
    (ttlArg : Option Int) (now : Int) : LRUCache :=
  if !c.enabled then c
  else
    let ttl := ttlArg.getD c.ttlMs
    let exp := if 0 < ttl then now + ttl else 0
    let e : CacheEntry := { v := v, exp := exp }
    { c with map := evictGo c.size (touch (mapSet c.map k e) k e) }

/-- `LRUCache.has(key)`: `this.get(key) !== undefined`, with `get`'s side
effects. -/
def LRUCache.has (c : LRUCache) (k : String) (now : Int) : Bool × LRUCache :=
  let r := c.get k now
  (r.1.isSome, r.2)

/-! ## Cache keys (`fnv1a32`, `makeCacheKey` of src/cache.js) -/

/-- The FNV-1a loop over the text's char codes: `h ^= code;
h = Math.imul(h, 0x01000193) >>> 0` (i.e. multiply mod `2^32`). -/
def fnv1a32Loop : List ℕ → ℕ → ℕ
  | [], h => h
  | code :: rest, h => fnv1a32Loop rest ((h.xor code) * 16777619 % 2 ^ 32)

/-- `fnv1a32(str)`: 8-hex-digit lower-case rendering of the 32-bit hash,
zero-padded on the left (`toString(16).padStart(8, '0')`).  Char codes are
the characters' code points (identical to JS UTF-16 units on the BMP text
this extension hashes). -/
def fnv1a32 (s : String) : String :=
  let h := fnv1a32Loop (s.toList.map Char.toNat) 2166136261
  let hex := String.mk (Nat.toDigits 16 h)
  String.mk (List.replicate (8 - hex.length) '0') ++ hex

/-- `makeCacheKey({provider, model, sourceLang, targetLang, text})`:
`v1|provider|model|sourceLang|targetLang|hash` with the code's trimming and
lower-casing. -/
def makeCacheKey (provider modelName sourceLang targetLang text : String) : String :=
  "v1|" ++ jsToLower (jsTrim provider) ++ "|" ++ jsTrim modelName ++ "|"
    ++ jsTrim sourceLang ++ "|" ++ jsTrim targetLang ++ "|" ++ fnv1a32 text

/-! ## Batch splitter and segment heuristics (options/options.js) -/

/-- The three codepoint ranges `estimateTokens` counts as CJK/Kana/Hangul. -/
def isCJKCode (ch : ℕ) : Bool :=
  (0x4E00 ≤ ch && ch ≤ 0x9FFF) || (0x3040 ≤ ch && ch ≤ 0x30FF)
    || (0xAC00 ≤ ch && ch ≤ 0xD7AF)

/-- `estimateTokens(s)`: CJK characters count 1 token each, the rest count
`Math.ceil(nonCjk / 4)` together. -/
def estimateTokens (s : String) : ℕ :=
  let cjk := (s.toList.filter (fun c => isCJKCode c.toNat)).length
  let nonCjk := s.length - cjk
  cjk + (nonCjk + 3) / 4

/-- The running state of `splitInputsByBudget`: emitted chunks, the current
chunk, and its running character and token totals. -/
structure SplitSt where
  out : List (List String)
  cur : List String
  curChars : ℕ
  curTokens : ℕ
deriving DecidableEq

/-- `flush()`: emit the current chunk when non-empty, reset the totals. -/
def flushSt (st : SplitSt) : SplitSt :=
  if st.cur.isEmpty then { out := st.out, cur := [], curChars := 0, curTokens := 0 }
  else { out := st.out ++ [st.cur], cur := [], curChars := 0, curTokens := 0 }

/-- The loop body of `splitInputsByBudget` for one input: flush first when
the chunk is non-empty and appending would exceed a ceiling; append; flush
again when a ceiling is now met or exceeded. -/
def splitStep (maxItems maxChars tokenBudget : ℕ) (st : SplitSt) (txt : String) :
    SplitSt :=
  let tChars := txt.length
  let tTokens := estimateTokens txt
  let st1 :=
    if 0 < st.cur.length ∧
        (maxItems < st.cur.length + 1 ∨ maxChars < st.curChars + tChars ∨
          tokenBudget < st.curTokens + tTokens) then
      flushSt st
    else st
  let st2 : SplitSt :=
    { out := st1.out, cur := st1.cur ++ [txt], curChars := st1.curChars + tChars
      curTokens := st1.curTokens + tTokens }
  if maxItems ≤ st2.cur.length ∨ maxChars ≤ st2.curChars ∨ tokenBudget ≤ st2.curTokens then
    flushSt st2
  else st2

/-- `splitInputsByBudget(inputs, {maxItems, maxChars, tokenBudget})`. -/
def splitInputsByBudget (inputs : List String) (maxItems maxChars tokenBudget : ℕ) :
    List (List String) :=
  (flushSt (inputs.foldl (splitStep maxItems maxChars tokenBudget)
    { out := [], cur := [], curChars := 0, curTokens := 0 })).out

/-- The character class of `isSkippableSegment`:
`[A-Za-z0-9一-鿿぀-ヿ가-힯]`. -/
def isLetterLike (c : Char) : Bool :=
  ('A' ≤ c && c ≤ 'Z') || ('a' ≤ c && c ≤ 'z') || ('0' ≤ c && c ≤ '9')
    || isCJKCode c.toNat

/-- `isSkippableSegment(text, minLen)`: trimmed text shorter than `minLen`,
or containing no alphanumeric/CJK character at all. -/
def isSkippableSegment (text : String) (minLen : ℕ) : Bool :=
  let s := jsTrim text
  if s.length < minLen then true
  else (s.toList.filter isLetterLike).length == 0

/-! ## Orchestrator (`translateTextsV2` and `openaiBatchTranslateArray` of
the service worker) -/

/-- `langEquals(a, b)`: lower-cased equality or prefix relation either way;
false when either side is empty. -/
def langEquals (a b : String) : Bool :=
  let x := jsToLower a
  let y := jsToLower b
  if x.isEmpty || y.isEmpty then false
  else x == y || y.toList.isPrefixOf x.toList || x.toList.isPrefixOf y.toList

/-- The custom `isRetriable` classifier `getRetryOpts(cfg)` installs:
cancellation names are never retriable; a non-zero numeric `status` is
retriable iff listed in `retryOn`; everything else (network/type errors,
parse failures) is retriable. -/
def getRetryOptsIsRetriable (retryOn : List Int) (e : JsError) : Bool :=
  if e.name == "AbortError" || e.name == "SchedulerAbortError" then false
  else
    let status := e.status.getD 0
    if status ≠ 0 then retryOn.contains status else true

/-- A cache-missing, non-skippable input as `translateTextsV2` queues it:
original position, text, and cache key. -/
structure PendItem where
  idx : ℕ
  text : String
  key : String
deriving DecidableEq

/-- The configuration slice `translateTextsV2` reads. -/
structure V2Config where
  providerType : String
  modelName : String
  sourceLang : String
  targetLang : String
  skipIfSourceEqualsTarget : Bool
  minLen : ℕ
  batchingEnabled : Bool
  maxItems : ℕ
  maxChars : ℕ
  tokenBudget : ℕ
deriving DecidableEq

/-- The skip condition of `translateTextsV2`'s first loop:
`(skipIfSourceEqualsTarget && sourceLang !== 'auto' &&
langEquals(sourceLang, targetLang)) || isSkippableSegment(t, minLen)`. -/
def v2SkipCond (cfg : V2Config) (t : String) : Bool :=
  (cfg.skipIfSourceEqualsTarget && cfg.sourceLang != "auto"
      && langEquals cfg.sourceLang cfg.targetLang)
    || isSkippableSegment t cfg.minLen

/-- The cache key `translateTextsV2` computes for an input. -/
def v2Key (cfg : V2Config) (t : String) : String :=
  makeCacheKey cfg.providerType cfg.modelName cfg.sourceLang cfg.targetLang t

/-- The first loop of `translateTextsV2`: fill skipped inputs through
unchanged, serve cache hits (threading the cache's `get` side effects),
collect misses into the pending list.  Returns the position-aligned partial
output (`none` marks a still-untranslated slot), the pending list, and the
cache state. -/
def v2Phase1 (cfg : V2Config) (now : Int) :
    List String → ℕ → LRUCache → List (Option String) × List PendItem × LRUCache
  | [], _, cache => ([], [], cache)
  | t :: rest, i, cache =>
    if v2SkipCond cfg t then
      let r := v2Phase1 cfg now rest (i + 1) cache
      (some t :: r.1, r.2.1, r.2.2)
    else
      let key := v2Key cfg t
      let g := cache.get key now
      match g.1 with
      | some s =>
        let r := v2Phase1 cfg now rest (i + 1) g.2
        (some s :: r.1, r.2.1, r.2.2)
      | none =>
        let r := v2Phase1 cfg now rest (i + 1) g.2
        (none :: r.1, { idx := i, text := t, key := key } :: r.2.1, r.2.2)

/-- The write-back loop of `translateTextsV2`: for the `k`-th pending item,
take the `k`-th computed result (`?? ''` when the result array is short),
store it at the item's original position, and `cache.set` it under the
item's key.  Also returns the ordered trace of cache-write keys. -/
def v2WriteBack (now : Int) :
    List PendItem → List String → List (Option String) → LRUCache → List String →
      List (Option String) × LRUCache × List String
  | [], _, outs, cache, writes => (outs, cache, writes)
  | p :: ps, results, outs, cache, writes =>
    let v := results.headD ""
    v2WriteBack now ps results.tail (outs.set p.idx (some v))
      (cache.set p.key (some v) none now) (writes ++ [p.key])

/-- The catch block of `openaiBatchTranslateArray`: given the terminal
outcome of the scheduled+retried batch call, cancellation-class errors
(`AbortError`/`SchedulerAbortError`) bubble up, and every other terminal
failure falls back to one `openaiSingle` call per item of the chunk (the
per-item collaborator is the oracle `single`). -/
def openaiBatchCatch (texts : List String) (batchOutcome : Except JsError (List String))
    (single : String → String) : Except JsError (List String) :=
  match batchOutcome with
  | .ok arr => .ok arr
  | .error e =>
    if e.name == "AbortError" || e.name == "SchedulerAbortError" then .error e
    else .ok (texts.map single)

/-- The throw site inside the batch attempt: when the provider's content does
not parse as a JSON array of the chunk's length
(`parseJsonArrayLike` returns `null`), the attempt fails with a plain
`Error('Invalid JSON array from provider')` — no `status` field, so
`getRetryOptsIsRetriable` classifies it retriable. -/
def parseFailureError : JsError :=
  { name := "Error", message := "Invalid JSON array from provider", status := none }

/-- The result of one `translateTextsV2` call: position-aligned outputs
(`none` is a JS array hole, only possible for a pending slot the result
array did not cover), the final cache, the network payloads sent (one list
of texts per collaborator invocation), and the ordered cache-write keys. -/
structure V2Result where
  outs : List (Option String)
  cache : LRUCache
  calls : List (List String)
  writes : List String
deriving DecidableEq

/-- `translateTextsV2(texts, config, params, jobId)` with the network
collaborators abstracted as oracles: `batchCollab` yields the
length-aligned-or-fallback result array of one batch/chunk call
(`customTranslateBatch` resp. `openaiBatchTranslateArray`), `singleCollab`
the result of one `openaiSingle` call.  The openai-compatible provider with
batching enabled splits the pending texts by budget and issues one call per
chunk, concatenating the parts; with batching disabled it issues one
single-item call per pending item; every other provider type issues one
batch call for the whole pending list.  In every path the pending texts are
taken verbatim — content-identical inputs are not deduplicated. -/
def translateTextsV2Model (texts : List String) (cfg : V2Config) (cache : LRUCache)
    (now : Int) (batchCollab : List String → List String)
    (singleCollab : String → String) : V2Result :=
  let p1 := v2Phase1 cfg now texts 0 cache
  let outs0 := p1.1
  let pending := p1.2.1
  let cache1 := p1.2.2
  if pending.isEmpty then
    { outs := outs0, cache := cache1, calls := [], writes := [] }
  else if cfg.providerType == "openai-compatible" then
    if cfg.batchingEnabled then
      let seq := pending.map (·.text)
      let chunks := splitInputsByBudget seq cfg.maxItems cfg.maxChars cfg.tokenBudget
      let flatResults := (chunks.map batchCollab).flatten
      let wb := v2WriteBack now pending flatResults outs0 cache1 []
      { outs := wb.1, cache := wb.2.1, calls := chunks, writes := wb.2.2 }
    else
      let results := pending.map (fun p => singleCollab p.text)
      let wb := v2WriteBack now pending results outs0 cache1 []
      { outs := wb.1, cache := wb.2.1, calls := pending.map (fun p => [p.text])
        writes := wb.2.2 }
  else
    let seq := pending.map (·.text)
    let arr := batchCollab seq
    let wb := v2WriteBack now pending arr outs0 cache1 []
    { outs := wb.1, cache := wb.2.1, calls := [seq], writes := wb.2.2 }

/-! # Theorems -/

/-- Claim C8: for every attempt `k ≥ 1`, `computeBackoffDelay(k, base, max,
jitter=false)` equals `min(base * 2^(k-1), max)`, is non-decreasing in `k`
and never exceeds `max`; with `jitter=true` every possible return value for
the same `k` stays within ±30% of the unjittered value, and at the default
`base = 800`, `max = 20000` distinct return values are possible (the delay
varies between calls). -/
theorem computeBackoffDelay_spec (baseMs maxMs k k2 : ℕ) (_hk : 1 ≤ k) (hkk : k ≤ k2) :
    computeBackoffDelayBase k baseMs maxMs = min (baseMs * 2 ^ (k - 1)) maxMs ∧
    computeBackoffDelayBase k baseMs maxMs ≤ computeBackoffDelayBase k2 baseMs maxMs ∧
    computeBackoffDelayBase k baseMs maxMs ≤ maxMs ∧
    (∀ x : ℤ, backoffJitterPossible k baseMs maxMs x →
      7 * (computeBackoffDelayBase k baseMs maxMs : ℤ) ≤ 10 * x ∧
        10 * x ≤ 13 * (computeBackoffDelayBase k baseMs maxMs : ℤ)) ∧
    (∃ x y : ℤ, backoffJitterPossible 1 800 20000 x ∧
      backoffJitterPossible 1 800 20000 y ∧ x ≠ y) := by
  refine ⟨rfl, ?_, min_le_right _ _, ?_, ?_⟩
  · exact min_le_min
      (Nat.mul_le_mul_left _ (Nat.pow_le_pow_right (by norm_num)
        (Nat.sub_le_sub_right hkk 1))) le_rfl
  · rintro x ⟨pct, h10, h30, hlo, hhi⟩
    have h4 : (computeBackoffDelayBase k baseMs maxMs * pct / 100) * 100 ≤
        computeBackoffDelayBase k baseMs maxMs * 30 :=
      le_trans (Nat.div_mul_le_self _ _) (Nat.mul_le_mul_left _ h30)
    generalize hq : computeBackoffDelayBase k baseMs maxMs * pct / 100 = q at hlo hhi h4
    constructor <;> omega
  · exact ⟨720, 880, ⟨10, by norm_num, by norm_num, by decide, by decide⟩,
      ⟨10, by norm_num, by norm_num, by decide, by decide⟩, by decide⟩

/-- Witness for C8 at `k = 1`, `k2 = 2`, `base = 800`, `max = 20000`. -/
theorem computeBackoffDelay_spec_witness :
    computeBackoffDelayBase 1 800 20000 = min (800 * 2 ^ (1 - 1)) 20000 ∧
    computeBackoffDelayBase 1 800 20000 ≤ computeBackoffDelayBase 2 800 20000 ∧
    computeBackoffDelayBase 1 800 20000 ≤ 20000 ∧
    (∀ x : ℤ, backoffJitterPossible 1 800 20000 x →
      7 * (computeBackoffDelayBase 1 800 20000 : ℤ) ≤ 10 * x ∧
        10 * x ≤ 13 * (computeBackoffDelayBase 1 800 20000 : ℤ)) ∧
    (∃ x y : ℤ, backoffJitterPossible 1 800 20000 x ∧
      backoffJitterPossible 1 800 20000 y ∧ x ≠ y) :=
  computeBackoffDelay_spec 800 20000 1 2 (by norm_num) (by norm_num)

/-- Claim C10: an error with no numeric `status` field gets its status
sniffed from the message: the first three-digit number after the word
`HTTP` is the extracted status, a plain `Error` whose message contains
`HTTP 503` is classified by the default classifier exactly like an error
carrying `status = 503`, and a no-status, non-network error mentioning
`HTTP 404` is non-retriable under the default `retryOn` set.  The scan also
takes the first such number when several occur. -/
theorem extractStatus_message_sniffing (retryOn : List Int) :
    extractStatus { name := "Error", message := "HTTP 503", status := none } = 503 ∧
    defaultRetriable retryOn { name := "Error", message := "HTTP 503", status := none }
      = defaultRetriable retryOn { name := "Error", message := "request failed", status := some 503 } ∧
    defaultRetriable defaultRetryOn { name := "Error", message := "HTTP 404", status := none } = false ∧
    extractStatus { name := "Error", message := "saw HTTP 404 then HTTP 503", status := none } = 404 := by
  refine ⟨by decide, ?_, by decide, by decide⟩
  show (isNetworkError _ || retryOn.contains (extractStatus _)) =
    (isNetworkError _ || retryOn.contains (extractStatus _))
  rw [show isNetworkError { name := "Error", message := "HTTP 503", status := none } = false
      from by decide,
    show isNetworkError { name := "Error", message := "request failed", status := some 503 } = false
      from by decide,
    show extractStatus { name := "Error", message := "HTTP 503", status := none } = 503
      from by decide,
    show extractStatus { name := "Error", message := "request failed", status := some 503 } = 503
      from by decide]

/-- Counterexample to claim C5: a no-status, non-network error — a plain
`Error` with message `boom` — is NOT retriable under the default classifier
with the default `retryOn` set, contradicting "every error with no status is
retriable by default". -/
theorem defaultRetriable_no_status_cex :
    defaultRetriable defaultRetryOn { name := "Error", message := "boom", status := none } = false := by
  decide

/-- Claim C5 (amended): the default classifier is
`isNetworkError(e) || retryOn ∋ extractStatus(e)`: a non-network error with
a numeric status is retriable iff that status is in `retryOn`; every
network-classified error is retriable; a no-status, non-network,
non-HTTP-message error is retriable only when `0 ∈ retryOn` (so not by
default); and an `AbortError` is not retriable under the default `retryOn`
set. -/
theorem defaultRetriable_characterization (retryOn : List Int) (e : JsError) (s : Int)
    (hs : e.status = some s) (hn : isNetworkError e = false) :
    defaultRetriable retryOn e = retryOn.contains s ∧
    (∀ e2 : JsError, isNetworkError e2 = true → defaultRetriable retryOn e2 = true) ∧
    (∀ e3 : JsError, e3.status = none → isNetworkError e3 = false →
      firstHttpStatus e3.message = none → defaultRetriable retryOn e3 = retryOn.contains 0) ∧
    defaultRetriable defaultRetryOn (abortError "Aborted") = false := by
  refine ⟨?_, ?_, ?_, by decide⟩
  · unfold defaultRetriable extractStatus
    rw [hn, hs]
    simp
  · intro e2 h2
    unfold defaultRetriable
    rw [h2]
    simp
  · intro e3 h3s h3n h3m
    unfold defaultRetriable extractStatus
    rw [h3n, h3s, h3m]
    simp

/-- Witness for C5 (amended) at a concrete 503-status error. -/
theorem defaultRetriable_characterization_witness :
    defaultRetriable defaultRetryOn { name := "Error", message := "oops", status := some 503 }
      = defaultRetryOn.contains 503 ∧
    (∀ e2 : JsError, isNetworkError e2 = true → defaultRetriable defaultRetryOn e2 = true) ∧
    (∀ e3 : JsError, e3.status = none → isNetworkError e3 = false →
      firstHttpStatus e3.message = none →
      defaultRetriable defaultRetryOn e3 = defaultRetryOn.contains 0) ∧
    defaultRetriable defaultRetryOn (abortError "Aborted") = false :=
  defaultRetriable_characterization defaultRetryOn
    { name := "Error", message := "oops", status := some 503 } 503 rfl (by decide)

/-- A terminal failure of the batch call that is neither a parse failure nor
a cancellation: an HTTP 500 error that exhausted its retries. -/
def err500 : JsError := { name := "Error", message := "HTTP 500: upstream", status := some 500 }

/-- Counterexample to claim C2: when the openai batch call for the chunk
`["a", "b"]` fails terminally with the (non-parse, non-cancellation) HTTP
500 error, `openaiBatchTranslateArray` still falls back to one single-item
call per item — it does NOT propagate the failure to the caller. -/
theorem openaiBatch_fallback_cex :
    openaiBatchCatch ["a", "b"] (.error err500) (fun t => String.append t "!") = .ok ["a!", "b!"] ∧
    openaiBatchCatch ["a", "b"] (.error err500) (fun t => String.append t "!") ≠ .error err500 := by
  have h : openaiBatchCatch ["a", "b"] (.error err500) (fun t => String.append t "!")
      = .ok ["a!", "b!"] := rfl
  exact ⟨h, by rw [h]; simp⟩

/-- Claim C2 (amended): the per-item fallback of `openaiBatchTranslateArray`
triggers for EVERY terminal failure of the batch call that is not
cancellation-class (name `AbortError`/`SchedulerAbortError`) — parse
failures included, but also HTTP-status failures that exhausted their
retries; only cancellation-class failures propagate to the caller.  A parse
failure (`Invalid JSON array from provider`, no status) is classified
retriable by the orchestrator's classifier, while cancellation is not. -/
theorem openaiBatch_terminal_failure_policy (texts arr : List String)
    (single : String → String) (e : JsError) :
    (openaiBatchCatch texts (.ok arr) single = .ok arr) ∧
    ((e.name = "AbortError" ∨ e.name = "SchedulerAbortError") →
      openaiBatchCatch texts (.error e) single = .error e) ∧
    (e.name ≠ "AbortError" → e.name ≠ "SchedulerAbortError" →
      openaiBatchCatch texts (.error e) single = .ok (texts.map single)) ∧
    (openaiBatchCatch texts (.error parseFailureError) single = .ok (texts.map single)) ∧
    getRetryOptsIsRetriable defaultRetryOn parseFailureError = true ∧
    getRetryOptsIsRetriable defaultRetryOn (abortError "Aborted") = false := by
  refine ⟨rfl, ?_, ?_, rfl, by decide, by decide⟩
  · intro h
    unfold openaiBatchCatch
    rcases h with h | h <;> simp [h]
  · intro h1 h2
    have hb : (e.name == "AbortError" || e.name == "SchedulerAbortError") = false := by
      simp [h1, h2]
    simp [openaiBatchCatch, hb]

/-- Witness for C2 (amended) at a concrete chunk and error. -/
theorem openaiBatch_terminal_failure_policy_witness :
    (openaiBatchCatch ["a"] (.ok ["b"]) (fun t => t) = .ok ["b"]) ∧
    ((JsError.name (abortError "Aborted") = "AbortError" ∨
        JsError.name (abortError "Aborted") = "SchedulerAbortError") →
      openaiBatchCatch ["a"] (.error (abortError "Aborted")) (fun t => t)
        = .error (abortError "Aborted")) ∧
    (JsError.name (abortError "Aborted") ≠ "AbortError" →
      JsError.name (abortError "Aborted") ≠ "SchedulerAbortError" →
      openaiBatchCatch ["a"] (.error (abortError "Aborted")) (fun t => t)
        = .ok (["a"].map (fun t => t))) ∧
    (openaiBatchCatch ["a"] (.error parseFailureError) (fun t => t)
      = .ok (["a"].map (fun t => t))) ∧
    getRetryOptsIsRetriable defaultRetryOn parseFailureError = true ∧
    getRetryOptsIsRetriable defaultRetryOn (abortError "Aborted") = false :=
  openaiBatch_terminal_failure_policy ["a"] ["b"] (fun t => t) (abortError "Aborted")

/-! ### Cache lemmas -/

theorem mapGet_append_last (m : List (String × CacheEntry)) (k : String) (e : CacheEntry)
    (h : ∀ p ∈ m, (p.1 == k) = false) : mapGet (m ++ [(k, e)]) k = some e := by
  induction m with
  | nil => simp [mapGet]
  | cons x rest ih =>
    have hx := h x (List.mem_cons_self x rest)
    have ih2 := ih (fun p hp => h p (List.mem_cons_of_mem x hp))
    simpa [mapGet, List.find?_cons, hx] using ih2

theorem evictGo_get_last (size : ℕ) (hsz : 1 ≤ size) (m : List (String × CacheEntry)) :
    ∀ (k : String) (e : CacheEntry), (∀ p ∈ m, (p.1 == k) = false) →
      mapGet (evictGo size (m ++ [(k, e)])) k = some e := by
  induction m with
  | nil =>
    intro k e _
    have hz : ¬ size = 0 := by omega
    simp [evictGo, mapGet, hz]
  | cons x rest ih =>
    intro k e h
    have hx := h x (List.mem_cons_self x rest)
    rw [List.cons_append]
    unfold evictGo
    split
    · exact ih k e (fun p hp => h p (List.mem_cons_of_mem x hp))
    · have hrest := mapGet_append_last rest k e (fun p hp => h p (List.mem_cons_of_mem x hp))
      simpa [mapGet, List.find?_cons, hx] using hrest

theorem mem_mapDelete_key (m : List (String × CacheEntry)) (k : String)
    (p : String × CacheEntry) (hp : p ∈ mapDelete m k) : (p.1 == k) = false := by
  unfold mapDelete at hp
  have := List.of_mem_filter hp
  simpa [bne] using this

theorem mapDelete_no_key (m : List (String × CacheEntry)) (k : String) :
    (mapDelete m k).any (fun p => p.1 == k) = false := by
  rw [← Bool.not_eq_true, List.any_eq_true]
  rintro ⟨p, hp, hk⟩
  rw [mem_mapDelete_key m k p hp] at hk
  exact Bool.false_ne_true hk

theorem touch_eq_append (m : List (String × CacheEntry)) (k : String) (e : CacheEntry) :
    touch m k e = mapDelete m k ++ [(k, e)] := by
  unfold touch mapSet
  rw [mapDelete_no_key m k]
  simp

/-- After an enabled `set(key, value)` with the default TTL, `get(key)` at
the same clock returns exactly the stored value — including when that value
is the JS `undefined`. -/
theorem lru_set_then_get (c : LRUCache) (k : String) (v : Option String) (now : Int)
    (hen : c.enabled = true) (hsz : 1 ≤ c.size) :
    ((c.set k v none now).get k now).1 = v := by
  have hexp : isExpired now
      { v := v, exp := if 0 < c.ttlMs then now + c.ttlMs else 0 } = false := by
    by_cases ht : 0 < c.ttlMs
    · by_cases h0 : now + c.ttlMs ≤ 0
      · simp [isExpired, ht, h0]
      · have hlt : ¬ (now + c.ttlMs < now) := by omega
        simp [isExpired, ht, h0, hlt]
    · simp [isExpired, ht]
  have hget1 : mapGet (evictGo c.size
      (touch (mapSet c.map k { v := v, exp := if 0 < c.ttlMs then now + c.ttlMs else 0 })
        k { v := v, exp := if 0 < c.ttlMs then now + c.ttlMs else 0 })) k
      = some { v := v, exp := if 0 < c.ttlMs then now + c.ttlMs else 0 } := by
    rw [touch_eq_append]
    exact evictGo_get_last c.size hsz _ k _ (fun p hp => mem_mapDelete_key _ k p hp)
  simp only [LRUCache.set, LRUCache.get, hen, Option.getD_none, Bool.not_true,
    Bool.false_eq_true, if_false]
  rw [hget1]
  simp [hexp]

/-- The cache state used by the concrete cache counterexample: enabled,
capacity 10, default TTL 0 (never expire), empty. -/
def demoCache : LRUCache := { size := 10, ttlMs := 0, enabled := true, map := [] }

/-- Counterexample to claim C9: on an enabled cache within capacity, after
`set("k", undefined)` and with no expiry possible (TTL 0), `has("k")`
reports the entry as ABSENT even though the entry is physically stored —
`has` is `get(key) !== undefined`, and `get` returns the stored
`undefined`. -/
theorem lru_has_stored_undefined_cex :
    ((demoCache.set "k" none none 0).has "k" 0).1 = false ∧
    mapGet (demoCache.set "k" none none 0).map "k" = some { v := none, exp := 0 } := by
  decide

/-- Claim C9 (amended): `has(key)` equals "`get(key)` returns a defined
value": after storing a defined value it reports present, but after
`set(key, undefined)` it reports absent — an explicitly stored `undefined`
is indistinguishable from a true miss. -/
theorem lru_has_defined_iff (c : LRUCache) (k : String) (now : Int) (s : String)
    (hen : c.enabled = true) (hsz : 1 ≤ c.size) :
    ((c.set k none none now).has k now).1 = false ∧
    ((c.set k (some s) none now).has k now).1 = true ∧
    (∀ c2 : LRUCache, (c2.has k now).1 = ((c2.get k now).1).isSome) := by
  refine ⟨?_, ?_, fun c2 => rfl⟩
  · show ((c.set k none none now).get k now).1.isSome = false
    rw [lru_set_then_get c k none now hen hsz]
    rfl
  · show ((c.set k (some s) none now).get k now).1.isSome = true
    rw [lru_set_then_get c k (some s) now hen hsz]
    rfl

/-- Witness for C9 (amended) on the concrete demo cache. -/
theorem lru_has_defined_iff_witness :
    ((demoCache.set "q" none none 0).has "q" 0).1 = false ∧
    ((demoCache.set "q" (some "value") none 0).has "q" 0).1 = true ∧
    (∀ c2 : LRUCache, (c2.has "q" 0).1 = ((c2.get "q" 0).1).isSome) :=
  lru_has_defined_iff demoCache "q" 0 "value" rfl (by norm_num [demoCache])

/-! ### Scheduler throttle and abort timing -/

/-- A task started while the throttle deadline is 5000 ms away, with zero
jitter drawn. -/
def throttleDemoCtx : RunOneCtx :=
  { startTime := 0, throttleUntil := 5000, jitterDelay := 0, aborted := false,
    bucket := mkTokenBucket 1 2 0 }

/-- Counterexample to claim C3: with 5000 ms of throttle window remaining,
the task's single clamped sleep ends at clock 2000 — before
`temporaryThrottleUntil = 5000` — and the task then acquires its
rate-limiter token and runs its body with the clock still at 2000. -/
theorem throttle_window_not_waited_out_cex :
    timeAtAbortCheck throttleDemoCtx = 2000 ∧
    throttleDemoCtx.throttleUntil = 5000 ∧ (2000 : ℚ) < 5000 ∧
    runOneModel throttleDemoCtx 1 () =
      some (.ok (), { rps := 1, capacity := 2, tokens := 1, lastRefill := 2000, time := 2000 }) := by
  refine ⟨?_, rfl, by norm_num, ?_⟩
  · norm_num [timeAtAbortCheck, timeAfterThrottle, throttleWaitMs, clampQ,
      throttleDemoCtx, min_def, max_def]
  · norm_num [runOneModel, throttleDemoCtx, timeAtAbortCheck, timeAfterThrottle,
      throttleWaitMs, clampQ, min_def, max_def, mkTokenBucket, BucketSt.take,
      takeLoop, BucketSt.refill]

/-- Claim C3 (amended): a task started during an active throttle waits a
single bounded slice of `clamp(remaining, 50, 2000)` milliseconds — at least
50 ms, at most 2000 ms — so it is guaranteed past the throttle deadline only
when the remaining window is at most 2000 ms; the token acquisition comes no
earlier than the end of that slice (plus the jitter sleep). -/
theorem throttle_wait_single_slice (c : RunOneCtx) (h : c.startTime < c.throttleUntil)
    (hj : 0 ≤ c.jitterDelay) :
    timeAfterThrottle c = c.startTime + clampQ (c.throttleUntil - c.startTime) 50 2000 ∧
    (c.throttleUntil - c.startTime ≤ 2000 → c.throttleUntil ≤ timeAfterThrottle c) ∧
    timeAfterThrottle c ≤ c.startTime + 2000 ∧
    c.startTime + 50 ≤ timeAfterThrottle c ∧
    timeAfterThrottle c ≤ timeAtAbortCheck c := by
  have h1 : timeAfterThrottle c
      = c.startTime + clampQ (c.throttleUntil - c.startTime) 50 2000 := by
    unfold timeAfterThrottle throttleWaitMs
    rw [if_pos h]
  refine ⟨h1, ?_, ?_, ?_, ?_⟩
  · intro h2
    have hmax : c.throttleUntil - c.startTime ≤ max 50 (c.throttleUntil - c.startTime) :=
      le_max_right _ _
    have hle : max 50 (c.throttleUntil - c.startTime) ≤ 2000 :=
      max_le (by norm_num) h2
    rw [h1]
    unfold clampQ
    rw [min_eq_right hle]
    linarith
  · rw [h1]
    have := min_le_left (2000 : ℚ) (max 50 (c.throttleUntil - c.startTime))
    unfold clampQ
    linarith
  · rw [h1]
    have : (50 : ℚ) ≤ min 2000 (max 50 (c.throttleUntil - c.startTime)) :=
      le_min (by norm_num) (le_max_left _ _)
    unfold clampQ
    linarith
  · unfold timeAtAbortCheck
    linarith

/-- The context for the C3 witness: throttle 1000 ms away, jitter 7. -/
def throttleWitnessCtx : RunOneCtx :=
  { startTime := 0, throttleUntil := 1000, jitterDelay := 7, aborted := false,
    bucket := mkTokenBucket 1 2 0 }

/-- Witness for C3 (amended) on `throttleWitnessCtx`. -/
theorem throttle_wait_single_slice_witness :
    timeAfterThrottle throttleWitnessCtx = throttleWitnessCtx.startTime
      + clampQ (throttleWitnessCtx.throttleUntil - throttleWitnessCtx.startTime) 50 2000 ∧
    (throttleWitnessCtx.throttleUntil - throttleWitnessCtx.startTime ≤ 2000 →
      throttleWitnessCtx.throttleUntil ≤ timeAfterThrottle throttleWitnessCtx) ∧
    timeAfterThrottle throttleWitnessCtx ≤ throttleWitnessCtx.startTime + 2000 ∧
    throttleWitnessCtx.startTime + 50 ≤ timeAfterThrottle throttleWitnessCtx ∧
    timeAfterThrottle throttleWitnessCtx ≤ timeAtAbortCheck throttleWitnessCtx :=
  throttle_wait_single_slice throttleWitnessCtx (by norm_num [throttleWitnessCtx])
    (by norm_num [throttleWitnessCtx])

/-- A task whose cancellation signal has already fired, started with
1000 ms of throttle remaining and 100 ms of jitter drawn. -/
def abortedDemoCtx : RunOneCtx :=
  { startTime := 0, throttleUntil := 1000, jitterDelay := 100, aborted := true,
    bucket := mkTokenBucket 1 2 0 }

/-- Counterexample to claim C4: the already-aborted task does fail with
`AbortError` and leaves the token bucket untouched, but its abort check only
happens at clock 1100 — AFTER sitting through the 1000 ms throttle slice and
the 100 ms jitter — and the task holds a running slot (the running count is
incremented) throughout. -/
theorem runOne_abort_after_waits_cex :
    runOneModel abortedDemoCtx 5 "result"
      = some (.error (abortError "Aborted"), abortedDemoCtx.bucket) ∧
    timeAtAbortCheck abortedDemoCtx = 1100 ∧
    timeAtAbortCheck abortedDemoCtx ≠ abortedDemoCtx.startTime ∧
    runningDuringRunOne 0 = 1 := by
  refine ⟨rfl, ?_, ?_, rfl⟩
  · norm_num [timeAtAbortCheck, timeAfterThrottle, throttleWaitMs, clampQ,
      abortedDemoCtx, min_def, max_def]
  · norm_num [timeAtAbortCheck, timeAfterThrottle, throttleWaitMs, clampQ,
      abortedDemoCtx, min_def, max_def]

/-- Claim C4 (amended): a task whose signal has already fired when the
scheduler starts it fails with `AbortError` and consumes no rate-limiter
token (the bucket is unchanged), but the check is only reached after the
throttle slice and the jitter sleep, and the task occupies a running slot
(`running + 1`) from its start until the failure. -/
theorem runOne_abort_policy (c : RunOneCtx) (fuel : ℕ) (body : String) (running : ℕ)
    (h : c.aborted = true) :
    runOneModel c fuel body = some (.error (abortError "Aborted"), c.bucket) ∧
    (runOneModel c fuel body).map (fun r => r.2.tokens) = some c.bucket.tokens ∧
    timeAtAbortCheck c
      = c.startTime + throttleWaitMs c.startTime c.throttleUntil + c.jitterDelay ∧
    runningDuringRunOne running = running + 1 := by
  have h1 : runOneModel c fuel body = some (.error (abortError "Aborted"), c.bucket) := by
    simp [runOneModel, h]
  exact ⟨h1, by rw [h1]; rfl, rfl, rfl⟩

/-- Witness for C4 (amended) on the concrete aborted context. -/
theorem runOne_abort_policy_witness :
    runOneModel abortedDemoCtx 3 "x"
      = some (.error (abortError "Aborted"), abortedDemoCtx.bucket) ∧
    (runOneModel abortedDemoCtx 3 "x").map (fun r => r.2.tokens)
      = some abortedDemoCtx.bucket.tokens ∧
    timeAtAbortCheck abortedDemoCtx
      = abortedDemoCtx.startTime
        + throttleWaitMs abortedDemoCtx.startTime abortedDemoCtx.throttleUntil
        + abortedDemoCtx.jitterDelay ∧
    runningDuringRunOne 4 = 4 + 1 :=
  runOne_abort_policy abortedDemoCtx 3 "x" 4 rfl

/-! ### Token bucket: starvation and resolution -/

/-- The tokens the bucket would hold after refilling now, ignoring the
capacity clamp: current tokens plus the pending elapsed-time refill. -/
def potential (b : BucketSt) : ℚ := b.tokens + (b.time - b.lastRefill) / 1000 * b.rps

theorem refill_spec (b : BucketSt) (h4 : 0 ≤ b.tokens) (h5 : b.tokens ≤ b.capacity)
    (h6 : b.lastRefill ≤ b.time) (h3 : 0 < b.rps) :
    b.refill.tokens = min b.capacity (potential b) ∧ b.refill.lastRefill = b.time ∧
    b.refill.time = b.time ∧ b.refill.capacity = b.capacity ∧ b.refill.rps = b.rps := by
  have hel : 0 ≤ (b.time - b.lastRefill) / 1000 := by
    apply div_nonneg (by linarith) (by norm_num)
  unfold BucketSt.refill
  by_cases hlt : 0 < (b.time - b.lastRefill) / 1000
  · rw [if_pos hlt]
    refine ⟨?_, rfl, rfl, rfl, rfl⟩
    show clampQ (b.tokens + (b.time - b.lastRefill) / 1000 * b.rps) 0 b.capacity
      = min b.capacity (potential b)
    unfold clampQ potential
    rw [max_eq_right (by nlinarith)]
  · rw [if_neg hlt]
    have he0 : (b.time - b.lastRefill) / 1000 = 0 := le_antisymm (not_lt.mp hlt) hel
    have hdiff : b.time - b.lastRefill = 0 := by
      rcases (div_eq_zero_iff.mp he0) with h | h
      · exact h
      · norm_num at h
    have heq : b.lastRefill = b.time := by linarith
    refine ⟨?_, heq, rfl, rfl, rfl⟩
    unfold potential
    rw [he0]
    rw [zero_mul, add_zero, min_eq_right h5]

theorem takeLoop_resolves (n : ℚ) (_hn : 0 < n) :
    ∀ k : ℕ, ∀ b : BucketSt, 0 ≤ b.tokens → b.tokens ≤ b.capacity →
      b.lastRefill ≤ b.time → 0 < b.rps → n ≤ b.capacity →
      n ≤ potential b + k * (b.rps / 100) →
      ∃ b2, takeLoop n (k + 1) b = some b2 ∧
        ∃ pre, n ≤ pre ∧ pre ≤ b.capacity ∧ b2.tokens = pre - n := by
  intro k
  induction k with
  | zero =>
    intro b h4 h5 h6 h3 hcap hpot
    simp only [Nat.cast_zero, zero_mul, add_zero] at hpot
    obtain ⟨ht, hlr, htime, hcapEq, hrps⟩ := refill_spec b h4 h5 h6 h3
    have hsucc : n ≤ b.refill.tokens := by
      rw [ht]; exact le_min hcap hpot
    refine ⟨{ b.refill with tokens := b.refill.tokens - n }, ?_,
      b.refill.tokens, hsucc, ?_, rfl⟩
    · simp only [takeLoop]
      rw [if_pos hsucc]
    · rw [ht]; exact min_le_left _ _
  | succ k ih =>
    intro b h4 h5 h6 h3 hcap hpot
    obtain ⟨ht, hlr, htime, hcapEq, hrps⟩ := refill_spec b h4 h5 h6 h3
    by_cases hsucc : n ≤ b.refill.tokens
    · refine ⟨{ b.refill with tokens := b.refill.tokens - n }, ?_,
        b.refill.tokens, hsucc, ?_, rfl⟩
      · simp only [takeLoop]
        rw [if_pos hsucc]
      · rw [ht]; exact min_le_left _ _
    · push_neg at hsucc
      have hpot0 : 0 ≤ potential b := by
        unfold potential
        have : 0 ≤ (b.time - b.lastRefill) / 1000 := by
          apply div_nonneg (by linarith) (by norm_num)
        nlinarith
      have hb1t : b.refill.tokens = potential b := by
        rcases le_total (potential b) b.capacity with hc | hc
        · rw [ht, min_eq_right hc]
        · exfalso
          rw [ht, min_eq_left hc] at hsucc
          linarith
      set waitMs := clampQ ((n - b.refill.tokens) / b.refill.rps * 1000) 10 2000 with hw
      have hw10 : (10 : ℚ) ≤ waitMs := le_min (by norm_num) (le_max_left _ _)
      set b2 : BucketSt := { b.refill with time := b.refill.time + waitMs } with hb2
      have h4b : 0 ≤ b2.tokens := by
        show 0 ≤ b.refill.tokens
        rw [hb1t]; exact hpot0
      have h5b : b2.tokens ≤ b2.capacity := by
        show b.refill.tokens ≤ b.refill.capacity
        rw [ht, hcapEq]; exact min_le_left _ _
      have h6b : b2.lastRefill ≤ b2.time := by
        show b.refill.lastRefill ≤ b.refill.time + waitMs
        rw [hlr, htime]
        linarith
      have h3b : 0 < b2.rps := by
        show 0 < b.refill.rps
        rw [hrps]; exact h3
      have hcapb : n ≤ b2.capacity := by
        show n ≤ b.refill.capacity
        rw [hcapEq]; exact hcap
      have hpotb : n ≤ potential b2 + k * (b2.rps / 100) := by
        have hpb2 : potential b2 = b.refill.tokens + waitMs / 1000 * b.rps := by
          show b.refill.tokens + (b.refill.time + waitMs - b2.lastRefill) / 1000 * b.refill.rps
            = b.refill.tokens + waitMs / 1000 * b.rps
          rw [show b2.lastRefill = b.refill.lastRefill from rfl, hlr, htime, hrps]
          ring_nf
        have hgain : b.rps / 100 ≤ waitMs / 1000 * b.rps := by
          have : (10 : ℚ) / 1000 * b.rps ≤ waitMs / 1000 * b.rps := by
            apply mul_le_mul_of_nonneg_right _ (le_of_lt h3)
            apply div_le_div_of_nonneg_right hw10 (by norm_num)
          calc b.rps / 100 = 10 / 1000 * b.rps := by ring
            _ ≤ waitMs / 1000 * b.rps := this
        have hrps2 : b2.rps = b.rps := by
          show b.refill.rps = b.rps
          exact hrps
        rw [hpb2, hb1t, hrps2]
        push_cast [Nat.cast_succ] at hpot
        nlinarith
      obtain ⟨b3, hrun, pre, hpre1, hpre2, hpre3⟩ := ih b2 h4b h5b h6b h3b hcapb hpotb
      refine ⟨b3, ?_, pre, hpre1, ?_, hpre3⟩
      · show takeLoop n (k + 1 + 1) b = some b3
        simp only [takeLoop]
        rw [if_neg (not_le.mpr hsucc)]
        exact hrun
      · calc pre ≤ b2.capacity := hpre2
          _ = b.capacity := hcapEq

/-- Claim C7 (amended): `take(n)` — with its argument clamped to at least
0.001 — eventually resolves and decrements the token count by exactly `n`
whenever `n` is within the bucket's capacity and the refill rate is
positive; the pre-decrement count `pre` satisfies `n ≤ pre ≤ capacity`.  For
`n` above the capacity it never resolves (see the counterexample): the
shortfall stops shrinking once the bucket is pinned at capacity. -/
theorem take_resolves_within_capacity (b : BucketSt) (n : ℚ)
    (h1 : 1/1000 ≤ n) (h2 : n ≤ b.capacity) (h3 : 0 < b.rps) (h4 : 0 ≤ b.tokens)
    (h5 : b.tokens ≤ b.capacity) (h6 : b.lastRefill ≤ b.time) :
    ∃ fuel b2, b.take n fuel = some b2 ∧
      ∃ pre, n ≤ pre ∧ pre ≤ b.capacity ∧ b2.tokens = pre - n := by
  have hn : 0 < n := lt_of_lt_of_le (by norm_num) h1
  obtain ⟨k, hk⟩ := exists_nat_ge ((n - potential b) / (b.rps / 100))
  have hc : 0 < b.rps / 100 := by positivity
  have hpot : n ≤ potential b + k * (b.rps / 100) := by
    have := (div_le_iff₀ hc).mp hk
    linarith
  obtain ⟨b2, hrun, hshape⟩ := takeLoop_resolves n hn k b h4 h5 h6 h3 h2 hpot
  refine ⟨k + 1, b2, ?_, hshape⟩
  unfold BucketSt.take
  rw [max_eq_right h1]
  exact hrun

/-- Witness for C7 (amended): a fresh bucket with rate 1, capacity 2,
`take(1)`. -/
theorem take_resolves_within_capacity_witness :
    ∃ fuel b2, BucketSt.take
        { rps := 1, capacity := 2, tokens := 2, lastRefill := 0, time := 0 } 1 fuel
        = some b2 ∧
      ∃ pre, (1 : ℚ) ≤ pre ∧
        pre ≤ ({ rps := 1, capacity := 2, tokens := 2, lastRefill := 0, time := 0 } :
          BucketSt).capacity ∧
        b2.tokens = pre - 1 :=
  take_resolves_within_capacity _ 1 (by norm_num) (by norm_num : (1 : ℚ) ≤ 2)
    (by norm_num : (0 : ℚ) < 1) (by norm_num : (0 : ℚ) ≤ 2) (by norm_num : (2 : ℚ) ≤ 2)
    (by norm_num : (0 : ℚ) ≤ 0)

theorem takeLoop_none_of_capacity_lt (n : ℚ) :
    ∀ (fuel : ℕ) (b : BucketSt), b.tokens ≤ b.capacity → b.capacity < n →
      takeLoop n fuel b = none := by
  intro fuel
  induction fuel with
  | zero => intro b _ _; rfl
  | succ f ih =>
    intro b h5 hlt
    have hrt : b.refill.tokens ≤ b.refill.capacity ∧ b.refill.capacity = b.capacity := by
      by_cases hc : 0 < (b.time - b.lastRefill) / 1000
      · simp only [BucketSt.refill, clampQ, if_pos hc]
        exact ⟨min_le_left _ _, trivial⟩
      · simp only [BucketSt.refill, clampQ, if_neg hc]
        exact ⟨h5, trivial⟩
    have hns : ¬ n ≤ b.refill.tokens :=
      not_le.mpr (lt_of_le_of_lt (le_trans hrt.1 (le_of_eq hrt.2)) hlt)
    simp only [takeLoop]
    rw [if_neg hns]
    exact ih _ hrt.1 (lt_of_le_of_lt (le_of_eq hrt.2) hlt)

/-- The bucket `new TokenBucket({ rps: 1, burst: 1 })` at clock 0: rate 1,
capacity 1, one token. -/
def starvedBucket : BucketSt := mkTokenBucket 1 1 0

/-- Counterexample to claim C7: with refill rate 1 (positive) and capacity 1,
`take(2)` NEVER resolves — however much fuel (loop iterations and elapsed
time) the call is given — because the token count is clamped to the capacity
and can never reach 2. -/
theorem take_starves_cex : ¬ ∃ fuel b2, starvedBucket.take 2 fuel = some b2 := by
  rintro ⟨fuel, b2, h⟩
  unfold BucketSt.take at h
  rw [max_eq_right (by norm_num : (1 : ℚ)/1000 ≤ 2)] at h
  rw [takeLoop_none_of_capacity_lt 2 fuel starvedBucket
    (by norm_num [starvedBucket, mkTokenBucket])
    (by norm_num [starvedBucket, mkTokenBucket])] at h
  exact Option.noConfusion h

/-! ### Batch splitter: budget invariants -/

/-- Total character count of a chunk. -/
def chunkChars (ch : List String) : ℕ := (ch.map String.length).sum

/-- Total estimated-token count of a chunk. -/
def chunkTokens (ch : List String) : ℕ := (ch.map estimateTokens).sum

/-- The loop invariant of `splitInputsByBudget`: the running totals track the
current chunk, the current chunk (when open) is strictly below every ceiling
(this is what "close immediately when a ceiling is met" maintains), and every
emitted chunk is non-empty and — when it has more than one item — within all
three ceilings. -/
def SplitInv (mi mc tb : ℕ) (st : SplitSt) : Prop :=
  st.curChars = chunkChars st.cur ∧ st.curTokens = chunkTokens st.cur ∧
  (st.cur = [] ∨ (st.cur.length < mi ∧ st.curChars < mc ∧ st.curTokens < tb)) ∧
  (∀ ch ∈ st.out, ch ≠ [] ∧
    (1 < ch.length → ch.length ≤ mi ∧ chunkChars ch ≤ mc ∧ chunkTokens ch ≤ tb))

theorem chunkChars_append (l : List String) (t : String) :
    chunkChars (l ++ [t]) = chunkChars l + t.length := by
  simp [chunkChars]

theorem chunkTokens_append (l : List String) (t : String) :
    chunkTokens (l ++ [t]) = chunkTokens l + estimateTokens t := by
  simp [chunkTokens]

theorem flushSt_cur (st : SplitSt) : (flushSt st).cur = [] := by
  unfold flushSt
  split <;> rfl

theorem flushSt_out_flatten (st : SplitSt) :
    (flushSt st).out.flatten = st.out.flatten ++ st.cur := by
  unfold flushSt
  split <;> rename_i h
  · simp [List.isEmpty_iff.mp h]
  · simp

theorem flushSt_inv (mi mc tb : ℕ) (st : SplitSt)
    (h1 : st.curChars = chunkChars st.cur) (h2 : st.curTokens = chunkTokens st.cur)
    (hB : 1 < st.cur.length → st.cur.length ≤ mi ∧ st.curChars ≤ mc ∧ st.curTokens ≤ tb)
    (h4 : ∀ ch ∈ st.out, ch ≠ [] ∧
      (1 < ch.length → ch.length ≤ mi ∧ chunkChars ch ≤ mc ∧ chunkTokens ch ≤ tb)) :
    SplitInv mi mc tb (flushSt st) := by
  unfold flushSt
  split <;> rename_i hcur
  · exact ⟨rfl, rfl, Or.inl rfl, h4⟩
  · refine ⟨rfl, rfl, Or.inl rfl, ?_⟩
    intro ch hch
    rw [List.mem_append] at hch
    rcases hch with hch | hch
    · exact h4 ch hch
    · rw [List.mem_singleton] at hch
      subst hch
      have hne : st.cur ≠ [] := by
        intro he
        rw [he] at hcur
        simp at hcur
      refine ⟨hne, fun hlen => ?_⟩
      obtain ⟨ha, hb, hc⟩ := hB hlen
      exact ⟨ha, h1 ▸ hb, h2 ▸ hc⟩

theorem step2_inv (mi mc tb : ℕ) (st1 : SplitSt) (txt : String)
    (hInv1 : SplitInv mi mc tb st1)
    (hA : st1.cur = [] ∨ (st1.cur.length + 1 ≤ mi ∧ st1.curChars + txt.length ≤ mc ∧
      st1.curTokens + estimateTokens txt ≤ tb)) :
    SplitInv mi mc tb
      (if mi ≤ (st1.cur ++ [txt]).length ∨ mc ≤ st1.curChars + txt.length ∨
          tb ≤ st1.curTokens + estimateTokens txt then
        flushSt { out := st1.out, cur := st1.cur ++ [txt],
                  curChars := st1.curChars + txt.length,
                  curTokens := st1.curTokens + estimateTokens txt }
      else { out := st1.out, cur := st1.cur ++ [txt],
             curChars := st1.curChars + txt.length,
             curTokens := st1.curTokens + estimateTokens txt }) := by
  obtain ⟨h1, h2, _h3, h4⟩ := hInv1
  have h1b : st1.curChars + txt.length = chunkChars (st1.cur ++ [txt]) := by
    rw [chunkChars_append, h1]
  have h2b : st1.curTokens + estimateTokens txt = chunkTokens (st1.cur ++ [txt]) := by
    rw [chunkTokens_append, h2]
  have hB : 1 < (st1.cur ++ [txt]).length →
      (st1.cur ++ [txt]).length ≤ mi ∧ st1.curChars + txt.length ≤ mc ∧
        st1.curTokens + estimateTokens txt ≤ tb := by
    intro hlen
    rcases hA with hA | hA
    · rw [hA] at hlen
      simp at hlen
    · refine ⟨?_, hA.2.1, hA.2.2⟩
      rw [List.length_append, List.length_singleton]
      exact hA.1
  split <;> rename_i hc2
  · exact flushSt_inv mi mc tb _ h1b h2b hB h4
  · push_neg at hc2
    exact ⟨h1b, h2b, Or.inr ⟨hc2.1, hc2.2.1, hc2.2.2⟩, h4⟩

theorem splitStep_inv (mi mc tb : ℕ) (st : SplitSt) (txt : String)
    (h : SplitInv mi mc tb st) : SplitInv mi mc tb (splitStep mi mc tb st txt) := by
  by_cases c1 : 0 < st.cur.length ∧ (mi < st.cur.length + 1 ∨
      mc < st.curChars + txt.length ∨ tb < st.curTokens + estimateTokens txt)
  · have hInv1 : SplitInv mi mc tb (flushSt st) :=
      flushSt_inv mi mc tb st h.1 h.2.1
        (fun hlen => by
          rcases h.2.2.1 with h3 | h3
          · rw [h3] at hlen; simp at hlen
          · exact ⟨le_of_lt h3.1, le_of_lt h3.2.1, le_of_lt h3.2.2⟩)
        h.2.2.2
    have := step2_inv mi mc tb (flushSt st) txt hInv1 (Or.inl (flushSt_cur st))
    simpa only [splitStep, if_pos c1] using this
  · have hA : st.cur = [] ∨ (st.cur.length + 1 ≤ mi ∧ st.curChars + txt.length ≤ mc ∧
        st.curTokens + estimateTokens txt ≤ tb) := by
      rcases not_and_or.mp c1 with hc | hc
      · left
        exact List.length_eq_zero.mp (by omega)
      · right
        push_neg at hc
        exact ⟨hc.1, hc.2.1, hc.2.2⟩
    have := step2_inv mi mc tb st txt h hA
    simpa only [splitStep, if_neg c1] using this

theorem splitStep_join (mi mc tb : ℕ) (st : SplitSt) (txt : String) :
    (splitStep mi mc tb st txt).out.flatten ++ (splitStep mi mc tb st txt).cur
      = st.out.flatten ++ st.cur ++ [txt] := by
  simp only [splitStep]
  split_ifs <;>
    simp [flushSt_out_flatten, flushSt_cur, List.append_assoc]

theorem foldl_splitStep_inv (mi mc tb : ℕ) (l : List String) :
    ∀ st, SplitInv mi mc tb st → SplitInv mi mc tb (l.foldl (splitStep mi mc tb) st) := by
  induction l with
  | nil => exact fun st h => h
  | cons t rest ih =>
    intro st h
    exact ih (splitStep mi mc tb st t) (splitStep_inv mi mc tb st t h)

theorem foldl_splitStep_join (mi mc tb : ℕ) (l : List String) :
    ∀ st, (l.foldl (splitStep mi mc tb) st).out.flatten
        ++ (l.foldl (splitStep mi mc tb) st).cur
      = st.out.flatten ++ st.cur ++ l := by
  induction l with
  | nil => intro st; simp
  | cons t rest ih =>
    intro st
    calc (rest.foldl (splitStep mi mc tb) (splitStep mi mc tb st t)).out.flatten
          ++ (rest.foldl (splitStep mi mc tb) (splitStep mi mc tb st t)).cur
        = (splitStep mi mc tb st t).out.flatten ++ (splitStep mi mc tb st t).cur ++ rest :=
          ih (splitStep mi mc tb st t)
      _ = st.out.flatten ++ st.cur ++ [t] ++ rest := by rw [splitStep_join]
      _ = st.out.flatten ++ st.cur ++ (t :: rest) := by
          rw [List.append_assoc (st.out.flatten ++ st.cur)]
          rfl

/-- Claim C6: concatenating the chunks of `splitInputsByBudget` in order
yields exactly the input list; every chunk is non-empty; no chunk with more
than one item exceeds any of the three ceilings; and after each processed
input the open chunk has either just been closed or is strictly below every
ceiling (a chunk whose running totals meet or exceed a ceiling is closed
immediately after the append). -/
theorem splitInputsByBudget_spec (inputs : List String) (mi mc tb : ℕ)
    (_hmi : 0 < mi) (_hmc : 0 < mc) (_htb : 0 < tb) :
    (splitInputsByBudget inputs mi mc tb).flatten = inputs ∧
    (∀ ch ∈ splitInputsByBudget inputs mi mc tb, ch ≠ [] ∧
      (1 < ch.length → ch.length ≤ mi ∧ chunkChars ch ≤ mc ∧ chunkTokens ch ≤ tb)) ∧
    (∀ st txt, SplitInv mi mc tb st →
      (splitStep mi mc tb st txt).cur = [] ∨
      ((splitStep mi mc tb st txt).cur.length < mi ∧
        (splitStep mi mc tb st txt).curChars < mc ∧
        (splitStep mi mc tb st txt).curTokens < tb)) := by
  have hinit : SplitInv mi mc tb { out := [], cur := [], curChars := 0, curTokens := 0 } :=
    ⟨rfl, rfl, Or.inl rfl, by intro ch hch; cases hch⟩
  have hfold := foldl_splitStep_inv mi mc tb inputs _ hinit
  have hfinal : SplitInv mi mc tb
      (flushSt (inputs.foldl (splitStep mi mc tb)
        { out := [], cur := [], curChars := 0, curTokens := 0 })) := by
    apply flushSt_inv mi mc tb _ hfold.1 hfold.2.1 _ hfold.2.2.2
    intro hlen
    rcases hfold.2.2.1 with h3 | h3
    · rw [h3] at hlen; simp at hlen
    · exact ⟨le_of_lt h3.1, le_of_lt h3.2.1, le_of_lt h3.2.2⟩
  refine ⟨?_, ?_, ?_⟩
  · unfold splitInputsByBudget
    have hj := foldl_splitStep_join mi mc tb inputs
      { out := [], cur := [], curChars := 0, curTokens := 0 }
    have hcur := flushSt_cur (inputs.foldl (splitStep mi mc tb)
      { out := [], cur := [], curChars := 0, curTokens := 0 })
    have hout := flushSt_out_flatten (inputs.foldl (splitStep mi mc tb)
      { out := [], cur := [], curChars := 0, curTokens := 0 })
    rw [hout]
    simpa using hj
  · intro ch hch
    exact hfinal.2.2.2 ch hch
  · intro st txt hst
    exact (splitStep_inv mi mc tb st txt hst).2.2.1

/-- Witness for C6 at a concrete input list and budgets. -/
theorem splitInputsByBudget_spec_witness :
    (splitInputsByBudget ["aa", "bb", "cc"] 2 100 100).flatten = ["aa", "bb", "cc"] ∧
    (∀ ch ∈ splitInputsByBudget ["aa", "bb", "cc"] 2 100 100, ch ≠ [] ∧
      (1 < ch.length → ch.length ≤ 2 ∧ chunkChars ch ≤ 100 ∧ chunkTokens ch ≤ 100)) ∧
    (∀ st txt, SplitInv 2 100 100 st →
      (splitStep 2 100 100 st txt).cur = [] ∨
      ((splitStep 2 100 100 st txt).cur.length < 2 ∧
        (splitStep 2 100 100 st txt).curChars < 100 ∧
        (splitStep 2 100 100 st txt).curTokens < 100)) :=
  splitInputsByBudget_spec ["aa", "bb", "cc"] 2 100 100 (by norm_num) (by norm_num)
    (by norm_num)

/-! ### Orchestrator: duplicates, cache writes, alignment -/

/-- The pending (non-skipped, cache-missing) items of one
`translateTextsV2` call. -/
def v2Pending (texts : List String) (cfg : V2Config) (cache : LRUCache) (now : Int) :
    List PendItem :=
  (v2Phase1 cfg now texts 0 cache).2.1

theorem getD_zero_headD (vs : List String) : vs.getD 0 "" = vs.headD "" := by
  cases vs <;> rfl

theorem getD_succ_tail (vs : List String) (k : ℕ) :
    vs.getD (k + 1) "" = vs.tail.getD k "" := by
  cases vs <;> rfl

theorem v2WriteBack_writes (now : Int) (ps : List PendItem) :
    ∀ (vs : List String) (outs : List (Option String)) (cache : LRUCache)
      (ws : List String),
      (v2WriteBack now ps vs outs cache ws).2.2 = ws ++ ps.map (·.key) := by
  induction ps with
  | nil => intro vs outs cache ws; simp [v2WriteBack]
  | cons p ps ih =>
    intro vs outs cache ws
    show (v2WriteBack now ps vs.tail (outs.set p.idx (some (vs.headD "")))
        (cache.set p.key (some (vs.headD "")) none now) (ws ++ [p.key])).2.2
      = ws ++ (p :: ps).map (·.key)
    rw [ih]
    simp

theorem v2WriteBack_outs_length (now : Int) (ps : List PendItem) :
    ∀ (vs : List String) (outs : List (Option String)) (cache : LRUCache)
      (ws : List String),
      (v2WriteBack now ps vs outs cache ws).1.length = outs.length := by
  induction ps with
  | nil => intro vs outs cache ws; rfl
  | cons p ps ih =>
    intro vs outs cache ws
    show (v2WriteBack now ps vs.tail (outs.set p.idx (some (vs.headD ""))) _ _).1.length
      = outs.length
    rw [ih]
    exact List.length_set ..

theorem v2WriteBack_get_untouched (now : Int) (ps : List PendItem) :
    ∀ (vs : List String) (outs : List (Option String)) (cache : LRUCache)
      (ws : List String) (j : ℕ), (∀ p ∈ ps, p.idx ≠ j) →
      (v2WriteBack now ps vs outs cache ws).1[j]? = outs[j]? := by
  induction ps with
  | nil => intro vs outs cache ws j _; rfl
  | cons p ps ih =>
    intro vs outs cache ws j hne
    show (v2WriteBack now ps vs.tail (outs.set p.idx (some (vs.headD ""))) _ _).1[j]?
      = outs[j]?
    rw [ih _ _ _ _ j (fun q hq => hne q (List.mem_cons_of_mem p hq))]
    exact List.getElem?_set_ne (hne p (List.mem_cons_self p ps))

theorem v2WriteBack_get_aligned (now : Int) (ps : List PendItem) :
    ∀ (vs : List String) (outs : List (Option String)) (cache : LRUCache)
      (ws : List String),
      List.Pairwise (fun p q => p.idx < q.idx) ps →
      (∀ p ∈ ps, p.idx < outs.length) →
      ∀ (k : ℕ) (hk : k < ps.length),
        (v2WriteBack now ps vs outs cache ws).1[(ps.get ⟨k, hk⟩).idx]?
          = some (some (vs.getD k "")) := by
  induction ps with
  | nil =>
    intro vs outs cache ws _ _ k hk
    exact absurd hk (by simp)
  | cons p ps ih =>
    intro vs outs cache ws hpw hbound k hk
    obtain ⟨hhead, htail⟩ := List.pairwise_cons.mp hpw
    cases k with
    | zero =>
      show (v2WriteBack now ps vs.tail (outs.set p.idx (some (vs.headD ""))) _ _).1[p.idx]?
        = some (some (vs.getD 0 ""))
      rw [v2WriteBack_get_untouched now ps _ _ _ _ p.idx
        (fun q hq => (ne_of_gt (hhead q hq)))]
      rw [List.getElem?_set_eq_of_lt _ (hbound p (List.mem_cons_self p ps))]
      rw [getD_zero_headD]
    | succ k =>
      show (v2WriteBack now ps vs.tail (outs.set p.idx (some (vs.headD ""))) _ _).1[(ps.get _).idx]?
        = some (some (vs.getD (k + 1) ""))
      rw [getD_succ_tail]
      exact ih vs.tail _ _ _ htail
        (fun q hq => by
          rw [List.length_set]
          exact hbound q (List.mem_cons_of_mem p hq))
        k (Nat.lt_of_succ_lt_succ hk)

theorem v2Phase1_facts (cfg : V2Config) (now : Int) (texts : List String) :
    ∀ (i : ℕ) (cache : LRUCache),
      (v2Phase1 cfg now texts i cache).1.length = texts.length ∧
      (∀ p ∈ (v2Phase1 cfg now texts i cache).2.1,
        (i ≤ p.idx ∧ p.idx < i + texts.length) ∧ p.key = v2Key cfg p.text) ∧
      List.Pairwise (fun p q => p.idx < q.idx) (v2Phase1 cfg now texts i cache).2.1 := by
  induction texts with
  | nil =>
    intro i cache
    refine ⟨rfl, ?_, List.Pairwise.nil⟩
    intro p hp
    cases hp
  | cons t rest ih =>
    intro i cache
    by_cases hskip : v2SkipCond cfg t
    · have heq : v2Phase1 cfg now (t :: rest) i cache =
          (some t :: (v2Phase1 cfg now rest (i + 1) cache).1,
            (v2Phase1 cfg now rest (i + 1) cache).2.1,
            (v2Phase1 cfg now rest (i + 1) cache).2.2) := by
        simp only [v2Phase1, if_pos hskip]
      obtain ⟨ih1, ih2, ih3⟩ := ih (i + 1) cache
      rw [heq]
      refine ⟨by simpa using ih1, fun p hp => ?_, ih3⟩
      obtain ⟨⟨hb1, hb2⟩, hb3⟩ := ih2 p hp
      have hlen : (t :: rest).length = rest.length + 1 := rfl
      exact ⟨⟨by omega, by omega⟩, hb3⟩
    · rcases hget : (cache.get (v2Key cfg t) now).1 with _ | s
      · have heq : v2Phase1 cfg now (t :: rest) i cache =
            (none :: (v2Phase1 cfg now rest (i + 1) (cache.get (v2Key cfg t) now).2).1,
              { idx := i, text := t, key := v2Key cfg t } ::
                (v2Phase1 cfg now rest (i + 1) (cache.get (v2Key cfg t) now).2).2.1,
              (v2Phase1 cfg now rest (i + 1) (cache.get (v2Key cfg t) now).2).2.2) := by
          simp only [v2Phase1, if_neg hskip, hget]
        obtain ⟨ih1, ih2, ih3⟩ := ih (i + 1) (cache.get (v2Key cfg t) now).2
        rw [heq]
        refine ⟨by simpa using ih1, fun p hp => ?_, ?_⟩
        · rcases List.mem_cons.mp hp with hp | hp
          · subst hp
            exact ⟨⟨le_refl i, by simp⟩, rfl⟩
          · obtain ⟨⟨hb1, hb2⟩, hb3⟩ := ih2 p hp
            have hlen : (t :: rest).length = rest.length + 1 := rfl
            exact ⟨⟨by omega, by omega⟩, hb3⟩
        · refine List.pairwise_cons.mpr ⟨fun q hq => ?_, ih3⟩
          obtain ⟨⟨hb1, _⟩, _⟩ := ih2 q hq
          show i < q.idx
          omega
      · have heq : v2Phase1 cfg now (t :: rest) i cache =
            (some s :: (v2Phase1 cfg now rest (i + 1) (cache.get (v2Key cfg t) now).2).1,
              (v2Phase1 cfg now rest (i + 1) (cache.get (v2Key cfg t) now).2).2.1,
              (v2Phase1 cfg now rest (i + 1) (cache.get (v2Key cfg t) now).2).2.2) := by
          simp only [v2Phase1, if_neg hskip, hget]
        obtain ⟨ih1, ih2, ih3⟩ := ih (i + 1) (cache.get (v2Key cfg t) now).2
        rw [heq]
        refine ⟨by simpa using ih1, fun p hp => ?_, ih3⟩
        obtain ⟨⟨hb1, hb2⟩, hb3⟩ := ih2 p hp
        have hlen : (t :: rest).length = rest.length + 1 := rfl
        exact ⟨⟨by omega, by omega⟩, hb3⟩

/-- Claim C1 (amended): for a custom-provider call with a non-empty pending
list, the orchestrator does NOT deduplicate content-identical inputs: the
single network payload contains the pending texts verbatim (one slot per
occurrence, so a duplicated text is sent once per occurrence), one cache
write is performed per occurrence — all occurrences of a text write the same
key, so a text pending twice gets two writes of its key — and the position
of the `k`-th pending occurrence receives the `k`-th element of the
collaborator's result array (so distinct occurrences can receive distinct
results). -/
theorem translateV2_per_occurrence (texts : List String) (cfg : V2Config)
    (cache : LRUCache) (now : Int) (batchCollab : List String → List String)
    (single : String → String)
    (hprov : cfg.providerType ≠ "openai-compatible")
    (hpend : v2Pending texts cfg cache now ≠ []) :
    (translateTextsV2Model texts cfg cache now batchCollab single).calls
        = [(v2Pending texts cfg cache now).map (·.text)] ∧
    (translateTextsV2Model texts cfg cache now batchCollab single).writes
        = (v2Pending texts cfg cache now).map (·.key) ∧
    (∀ p ∈ v2Pending texts cfg cache now,
      ((translateTextsV2Model texts cfg cache now batchCollab single).writes).count p.key
        = ((v2Pending texts cfg cache now).filter (fun q => q.key == p.key)).length) ∧
    (∀ p ∈ v2Pending texts cfg cache now, ∀ q ∈ v2Pending texts cfg cache now,
      p.text = q.text → p.key = q.key) ∧
    (∀ (k : ℕ) (hk : k < (v2Pending texts cfg cache now).length),
      (translateTextsV2Model texts cfg cache now batchCollab single).outs[((v2Pending texts cfg cache now).get ⟨k, hk⟩).idx]?
        = some (some ((batchCollab ((v2Pending texts cfg cache now).map (·.text))).getD k ""))) := by
  have hfacts := v2Phase1_facts cfg now texts 0 cache
  have hpend2 : (v2Phase1 cfg now texts 0 cache).2.1 ≠ [] := hpend
  have h1 : ((v2Phase1 cfg now texts 0 cache).2.1).isEmpty = false := by
    simp [List.isEmpty_iff, hpend2]
  have h2 : (cfg.providerType == "openai-compatible") = false :=
    beq_eq_false_iff_ne.mpr hprov
  have hmodel : translateTextsV2Model texts cfg cache now batchCollab single =
      { outs := (v2WriteBack now (v2Phase1 cfg now texts 0 cache).2.1
          (batchCollab ((v2Phase1 cfg now texts 0 cache).2.1.map (·.text)))
          (v2Phase1 cfg now texts 0 cache).1 (v2Phase1 cfg now texts 0 cache).2.2 []).1,
        cache := (v2WriteBack now (v2Phase1 cfg now texts 0 cache).2.1
          (batchCollab ((v2Phase1 cfg now texts 0 cache).2.1.map (·.text)))
          (v2Phase1 cfg now texts 0 cache).1 (v2Phase1 cfg now texts 0 cache).2.2 []).2.1,
        calls := [(v2Phase1 cfg now texts 0 cache).2.1.map (·.text)],
        writes := (v2WriteBack now (v2Phase1 cfg now texts 0 cache).2.1
          (batchCollab ((v2Phase1 cfg now texts 0 cache).2.1.map (·.text)))
          (v2Phase1 cfg now texts 0 cache).1 (v2Phase1 cfg now texts 0 cache).2.2 []).2.2 } := by
    simp only [translateTextsV2Model, h1, h2, Bool.false_eq_true, if_false]
  have hwrites : (translateTextsV2Model texts cfg cache now batchCollab single).writes
      = (v2Pending texts cfg cache now).map (·.key) := by
    rw [hmodel]
    show (v2WriteBack now _ _ _ _ []).2.2 = _
    rw [v2WriteBack_writes]
    simp [v2Pending]
  refine ⟨by rw [hmodel]; rfl, hwrites, ?_, ?_, ?_⟩
  · intro p _
    rw [hwrites, List.count_eq_countP, List.countP_map, List.countP_eq_length_filter]
    rfl
  · intro p hp q hq htext
    have hpk := ((hfacts.2.1 p hp).2)
    have hqk := ((hfacts.2.1 q hq).2)
    rw [hpk, hqk, htext]
  · intro k hk
    rw [hmodel]
    show (v2WriteBack now _ _ _ _ []).1[_]? = _
    exact v2WriteBack_get_aligned now (v2Pending texts cfg cache now) _ _ _ []
      hfacts.2.2
      (fun p hp => by
        rw [hfacts.1]
        have := (hfacts.2.1 p hp).1.2
        omega)
      k hk

/-- The custom-provider configuration for the duplicate-input scenario:
batching on, skip rules on, empty model name, `auto → zh-CN`. -/
def dupDemoCfg : V2Config :=
  { providerType := "custom", modelName := "", sourceLang := "auto",
    targetLang := "zh-CN", skipIfSourceEqualsTarget := true, minLen := 2,
    batchingEnabled := true, maxItems := 20, maxChars := 8000, tokenBudget := 2000 }

/-- A collaborator that returns two DIFFERENT results for the two
occurrences of `hello` in the payload. -/
def dupCollab : List String → List String :=
  fun l => if l = ["hello", "hello"] then ["X", "Y"] else []

/-- The cache key both occurrences of `hello` share. -/
def helloKey : String := makeCacheKey "custom" "" "auto" "zh-CN" "hello"

/-- The orchestrator's result on `["hello", "hello"]` — two content-identical,
non-skippable, non-cached texts — with an empty enabled cache. -/
def dupDemoResult : V2Result :=
  translateTextsV2Model ["hello", "hello"] dupDemoCfg demoCache 0 dupCollab (fun t => t)

/-- Counterexample to claim C1: with two content-identical, non-skippable,
non-cached inputs, the network payload contains the unique text TWICE (no
deduplication), TWO cache writes are performed for its single cache key, and
the two output positions receive the collaborator's two (here distinct)
results rather than one shared result. -/
theorem translateV2_duplicates_cex :
    dupDemoResult.calls = [["hello", "hello"]] ∧
    dupDemoResult.calls.flatten.count "hello" = 2 ∧
    dupDemoResult.writes = [helloKey, helloKey] ∧
    dupDemoResult.writes.count helloKey = 2 ∧
    dupDemoResult.outs = [some "X", some "Y"] ∧
    dupDemoResult.outs[0]? ≠ dupDemoResult.outs[1]? := by
  decide

/-- Witness for C1 (amended) on the concrete duplicate-input scenario. -/
theorem translateV2_per_occurrence_witness :
    (translateTextsV2Model ["hello", "hello"] dupDemoCfg demoCache 0 dupCollab
        (fun t => t)).calls
      = [(v2Pending ["hello", "hello"] dupDemoCfg demoCache 0).map (·.text)] ∧
    (translateTextsV2Model ["hello", "hello"] dupDemoCfg demoCache 0 dupCollab
        (fun t => t)).writes
      = (v2Pending ["hello", "hello"] dupDemoCfg demoCache 0).map (·.key) ∧
    (∀ p ∈ v2Pending ["hello", "hello"] dupDemoCfg demoCache 0,
      ((translateTextsV2Model ["hello", "hello"] dupDemoCfg demoCache 0 dupCollab
          (fun t => t)).writes).count p.key
        = ((v2Pending ["hello", "hello"] dupDemoCfg demoCache 0).filter
            (fun q => q.key == p.key)).length) ∧
    (∀ p ∈ v2Pending ["hello", "hello"] dupDemoCfg demoCache 0,
      ∀ q ∈ v2Pending ["hello", "hello"] dupDemoCfg demoCache 0,
      p.text = q.text → p.key = q.key) ∧
    (∀ (k : ℕ) (hk : k < (v2Pending ["hello", "hello"] dupDemoCfg demoCache 0).length),
      (translateTextsV2Model ["hello", "hello"] dupDemoCfg demoCache 0 dupCollab
          (fun t => t)).outs[((v2Pending ["hello", "hello"] dupDemoCfg demoCache 0).get
            ⟨k, hk⟩).idx]?
        = some (some ((dupCollab ((v2Pending ["hello", "hello"] dupDemoCfg demoCache
            0).map (·.text))).getD k ""))) :=
  translateV2_per_occurrence ["hello", "hello"] dupDemoCfg demoCache 0 dupCollab
    (fun t => t) (by decide) (by decide)

end EdgeAI
